import Mathlib

/-!
Verification of the pipeline notebook
"Massive Machine Learning Pipelines with scikit-learn - Part 1".

The notebook's own contribution is declarative configuration: the column
group lists, the per-group two-step chains, the two-element dispatcher, the
top-level chain ending in a ridge model, persistence of the fitted artifact
and the submission file.  The behaviour of each library component
(SimpleImputer, OneHotEncoder, StandardScaler, ColumnTransformer, Pipeline,
joblib dump/load, pandas pop / to_csv) is not in the repository; those
operations are modelled from the spec, and the notebook's concrete
configuration is embedded from the source.
-/

/-- A cell of a tabular dataset: missing, a string, or an exact numeric
value (rationals stand in for the numeric values). -/
inductive Cell where
  | na
  | str (s : String)
  | num (q : ℚ)
deriving DecidableEq, Repr

/-- A table: a list of rows, each row a list of cells.  This is the shape of
data a per-group chain receives from the dispatcher. -/
abbrev Table := List (List Cell)

/-- A dataset with named columns.  A row maps a column name to its cell, and
`cols` lists the column names present (in order). -/
structure DataFrame where
  cols : List String
  rows : List (String → Cell)

/-- The values of one named column, in row order. -/
def getCol (df : DataFrame) (c : String) : List Cell :=
  df.rows.map (fun r => r c)

/-- Select the sub-table of the named columns, in the given order, one list
of cells per row.  Modelled from the spec: this is the column selection the
dispatcher performs before handing a group to its chain. -/
def subtable (df : DataFrame) (cols : List String) : Table :=
  df.rows.map (fun r => cols.map r)

/-- Number of columns a chain sees in a table (the length of the first row;
0 for an empty table). -/
def ncolsOf (t : Table) : Nat :=
  (t.head?.map List.length).getD 0

/-- Column `j` of a table (missing cells for short rows). -/
def colOf (t : Table) (j : Nat) : List Cell :=
  t.map (fun r => r.getD j Cell.na)

/-- The non-missing cells of a column. -/
def presentCells (l : List Cell) : List Cell :=
  l.filter (fun c => c ≠ Cell.na)

/-- Modelled from the spec: the most frequent value observed in a column
(the fill value learned by the categorical imputer).  Among the distinct
present values, one of maximal multiplicity is chosen. -/
def mostFrequent (l : List Cell) : Cell :=
  let p := presentCells l
  match p with
  | [] => Cell.na
  | v :: _ => p.dedup.foldl (fun best w => if p.count best < p.count w then w else best) v

/-- The numeric content of a cell, if any. -/
def toQ : Cell → Option ℚ
  | Cell.num q => some q
  | _ => none

/-- Mean of a list of rationals (0 on the empty list). -/
def meanQ (l : List ℚ) : ℚ :=
  l.sum / l.length

/-- Modelled from the spec: the per-column mean of the present numeric
values (the fill value learned by the continuous imputer). -/
def meanFill (l : List Cell) : ℚ :=
  meanQ (l.filterMap toQ)

/-- The imputation strategies the notebook configures. -/
inductive Strategy where
  | most_frequent
  | mean
deriving DecidableEq, Repr

/-- Modelled from the spec: a simple imputer, parameterised by its strategy
exactly as `SimpleImputer(strategy=...)` is in the source. -/
structure SimpleImputer where
  strategy : Strategy
deriving DecidableEq, Repr

/-- Fitting an imputer learns one fill value per column of the training
table. -/
def SimpleImputer.fit (si : SimpleImputer) (t : Table) : List Cell :=
  (List.range (ncolsOf t)).map (fun j =>
    match si.strategy with
    | Strategy.most_frequent => mostFrequent (colOf t j)
    | Strategy.mean => Cell.num (meanFill (colOf t j)))

/-- Replace each missing cell of a row by that column's fill value. -/
def imputeRow (fills : List Cell) (row : List Cell) : List Cell :=
  List.zipWith (fun f c => if c = Cell.na then f else c) fills row

/-- Transforming with a fitted imputer replaces missing cells by the learned
fill values; the strategy plays no role after fitting. -/
def imputerTransform (fills : List Cell) (t : Table) : Table :=
  t.map (imputeRow fills)

/-- The learned state of a second-stage (encoding/scaling) step: observed
categories per column for the one-hot encoder, or (mean, variance) per
column for the standard scaler. -/
inductive NumState where
  | oheS (cats : List (List Cell))
  | ssS (ps : List (ℚ × ℚ))
deriving DecidableEq, Repr

/-- The indicator row of a value against a list of observed categories: one
entry per category, 1 where the value matches, 0 elsewhere.  A value outside
the list yields all zeros (the `handle_unknown='ignore'` behaviour). -/
noncomputable def cellIndicator (cats : List Cell) (v : Cell) : List ℝ :=
  cats.map (fun c => if c = v then (1 : ℝ) else 0)

/-- One-hot encode a row: each cell expands to the indicator block of its
column's observed categories, blocks concatenated left to right. -/
noncomputable def oheRow (cats : List (List Cell)) (row : List Cell) : List ℝ :=
  (List.zipWith cellIndicator cats row).flatten

/-- Population variance of a list of rationals. -/
def varQ (l : List ℚ) : ℚ :=
  meanQ (l.map (fun x => (x - meanQ l) ^ 2))

/-- Standardize one cell given the fitted (mean, variance) pair: subtract
the mean and divide by the standard deviation. -/
noncomputable def scaleCell (p : ℚ × ℚ) (c : Cell) : ℝ :=
  (((toQ c).getD 0 : ℚ) - (p.1 : ℝ)) / Real.sqrt (p.2 : ℝ)

/-- A second-stage step: fit learns a `NumState` from the (already imputed)
training table; transform turns a table into a numeric matrix. -/
structure NumStep where
  fitS : Table → NumState
  appS : NumState → Table → List (List ℝ)

/-- Modelled from the spec: `OneHotEncoder(sparse=False,
handle_unknown='ignore')`.  Fit records the distinct values observed per
column; transform produces the per-column indicator blocks, an unseen value
giving an all-zero block rather than an error. -/
noncomputable def ohe : NumStep where
  fitS := fun t => NumState.oheS ((List.range (ncolsOf t)).map (fun j => (colOf t j).dedup))
  appS := fun st t =>
    match st with
    | NumState.oheS cats => t.map (oheRow cats)
    | _ => t.map (fun _ => [])

/-- Modelled from the spec: `StandardScaler()`.  Fit records each column's
mean and (population) variance; transform rescales each cell with them. -/
noncomputable def ss : NumStep where
  fitS := fun t => NumState.ssS ((List.range (ncolsOf t)).map (fun j =>
    let col := (colOf t j).map (fun c => (toQ c).getD 0)
    (meanQ col, varQ col)))
  appS := fun st t =>
    match st with
    | NumState.ssS ps => t.map (fun row => List.zipWith scaleCell ps row)
    | _ => t.map (fun _ => [])

/-- The learned parameters of one per-group chain: the imputer's fill values
followed by the second step's state. -/
structure PipeState where
  s1 : List Cell
  s2 : NumState
deriving DecidableEq, Repr

/-- A per-group chain: fitting learns a `PipeState` from a table, applying a
fitted state maps a table to a numeric matrix. -/
structure Chain where
  fit : Table → PipeState
  app : PipeState → Table → List (List ℝ)

/-- Modelled from the spec: a two-step `Pipeline([imputer, second])`.
Fitting fit-transforms the imputer, then fits the second step on the imputed
output; applying transforms with the stored fills, then with the stored
second-step state — never re-estimating either. -/
noncomputable def pipe2 (si : SimpleImputer) (step2 : NumStep) : Chain where
  fit := fun t =>
    let fills := si.fit t
    ⟨fills, step2.fitS (imputerTransform fills t)⟩
  app := fun st t => step2.appS st.s2 (imputerTransform st.s1 t)

/-- `si_cat = SimpleImputer(strategy='most_frequent')` from the source. -/
def si_cat : SimpleImputer := ⟨Strategy.most_frequent⟩

/-- `si_cont = SimpleImputer(strategy='mean')` from the source. -/
def si_cont : SimpleImputer := ⟨Strategy.mean⟩

/-- `cat_pipe = Pipeline([('si', si_cat), ('ohe', ohe)])` from the source. -/
noncomputable def cat_pipe : Chain := pipe2 si_cat ohe

/-- `cont_pipe = Pipeline([('si', si_cont), ('ss', ss)])` from the source. -/
noncomputable def cont_pipe : Chain := pipe2 si_cont ss

/-- The categorical column group declared in the source. -/
def cat_cols : List String := ["Neighborhood", "LotShape", "OverallQual", "MasVnrType"]

/-- The continuous column group declared in the source. -/
def cont_cols : List String := ["GrLivArea", "GarageArea", "LotFrontage"]

/-- A dispatcher: an ordered list of (name, chain, column group) triples,
as `ColumnTransformer(transformers)` in the source. -/
structure ColumnTransformer where
  transformers : List (String × Chain × List String)

/-- `ct = ColumnTransformer([('cat_cols', cat_pipe, cat_cols),
('cont_cols', cont_pipe, cont_cols)])` from the source. -/
noncomputable def ct : ColumnTransformer :=
  ⟨[("cat_cols", cat_pipe, cat_cols), ("cont_cols", cont_pipe, cont_cols)]⟩

/-- Horizontal concatenation of per-group output blocks, each block sharing
the row count `n`, in the order the blocks are listed. -/
def hstackAll (n : Nat) (blocks : List (List (List ℝ))) : List (List ℝ) :=
  blocks.foldl (fun acc b => List.zipWith (· ++ ·) acc b) (List.replicate n [])

/-- Modelled from the spec: fitting the dispatcher fits each declared chain
on its own column group's sub-table, independently. -/
noncomputable def ColumnTransformer.fitCT (c : ColumnTransformer) (df : DataFrame) :
    List PipeState :=
  c.transformers.map (fun tr => tr.2.1.fit (subtable df tr.2.2))

/-- Modelled from the spec: transforming routes each group's sub-table
through its chain with the stored state and concatenates the blocks in
declaration order.  Columns outside every group are never read. -/
noncomputable def ColumnTransformer.transformCT (c : ColumnTransformer)
    (states : List PipeState) (df : DataFrame) : List (List ℝ) :=
  hstackAll df.rows.length
    (List.zipWith (fun tr st => tr.2.1.app st (subtable df tr.2.2)) c.transformers states)

/-- `ct.fit_transform(housing)` from the source: fit, then transform the
same data. -/
noncomputable def ct_fit_transform (df : DataFrame) : List (List ℝ) :=
  ct.transformCT (ct.fitCT df) df

/-- The learned parameters of the terminal ridge model: coefficients and
intercept.  The solver that produces them is opaque to the notebook; only
their use at prediction time is modelled. -/
structure FittedRidge where
  coef : List ℚ
  intercept : ℚ
deriving DecidableEq, Repr

/-- One prediction: intercept plus the dot product of the stored
coefficients with the feature row. -/
noncomputable def ridgePredictRow (r : FittedRidge) (x : List ℝ) : ℝ :=
  (r.intercept : ℝ) + (List.zipWith (fun c xi => (c : ℝ) * xi) r.coef x).sum

/-- The fitted top-level pipeline: the dispatcher's learned per-chain states
followed by the fitted ridge model, as `final_pipe` after `fit`. -/
structure FittedFinalPipe where
  ctStates : List PipeState
  ridge : FittedRidge
deriving DecidableEq

/-- Modelled from the spec: `final_pipe.predict` replays the dispatcher
transformation with the stored states and feeds each transformed row to the
ridge model's prediction. -/
noncomputable def predict (fp : FittedFinalPipe) (df : DataFrame) : List ℝ :=
  (ct.transformCT fp.ctStates df).map (ridgePredictRow fp.ridge)

/-- Prediction with explicit state threading: the call returns the pipeline
state it leaves behind together with the predictions.  Modelled from the
spec: prediction reapplies the learned parameters without re-estimating
anything, so the state passed out is the state passed in. -/
noncomputable def predictS (fp : FittedFinalPipe) (df : DataFrame) :
    FittedFinalPipe × List ℝ :=
  (fp, predict fp df)

/-! ### Persistence (joblib dump / load)

Modelled from the spec: the serialized artifact is the fitted pipeline's
structure and all learned parameters, flattened to a single sequence of
tokens; `load` parses that sequence back. -/

/-- One token of the serialized artifact. -/
inductive Token where
  | tn (n : Nat)
  | tq (x : ℚ)
  | tc (c : Cell)
deriving DecidableEq

/-- Length-prefixed encoding of a list. -/
def encList (f : α → List Token) (l : List α) : List Token :=
  Token.tn l.length :: (l.map f).flatten

/-- Decode `n` items with the item decoder `d`. -/
def decItems (d : List Token → Option (α × List Token)) :
    Nat → List Token → Option (List α × List Token)
  | 0, ts => some ([], ts)
  | n + 1, ts =>
    match d ts with
    | some (a, ts') =>
      match decItems d n ts' with
      | some (l, ts'') => some (a :: l, ts'')
      | none => none
    | none => none

/-- Decode a length-prefixed list. -/
def decList (d : List Token → Option (α × List Token)) :
    List Token → Option (List α × List Token)
  | Token.tn n :: ts => decItems d n ts
  | _ => none

def encCell (c : Cell) : List Token := [Token.tc c]

def decCell : List Token → Option (Cell × List Token)
  | Token.tc c :: ts => some (c, ts)
  | _ => none

def encQ (x : ℚ) : List Token := [Token.tq x]

def decQ : List Token → Option (ℚ × List Token)
  | Token.tq x :: ts => some (x, ts)
  | _ => none

def encQQ (p : ℚ × ℚ) : List Token := [Token.tq p.1, Token.tq p.2]

def decQQ : List Token → Option ((ℚ × ℚ) × List Token)
  | Token.tq a :: Token.tq b :: ts => some ((a, b), ts)
  | _ => none

def encNumState : NumState → List Token
  | NumState.oheS cats => Token.tn 0 :: encList (encList encCell) cats
  | NumState.ssS ps => Token.tn 1 :: encList encQQ ps

def decNumState : List Token → Option (NumState × List Token)
  | Token.tn 0 :: ts =>
    match decList (decList decCell) ts with
    | some (cats, ts') => some (NumState.oheS cats, ts')
    | none => none
  | Token.tn 1 :: ts =>
    match decList decQQ ts with
    | some (ps, ts') => some (NumState.ssS ps, ts')
    | none => none
  | _ => none

def encPipeState (st : PipeState) : List Token :=
  encList encCell st.s1 ++ encNumState st.s2

def decPipeState (ts : List Token) : Option (PipeState × List Token) :=
  match decList decCell ts with
  | some (f, ts') =>
    match decNumState ts' with
    | some (s2, ts'') => some (⟨f, s2⟩, ts'')
    | none => none
  | none => none

def encRidge (r : FittedRidge) : List Token :=
  encList encQ r.coef ++ encQ r.intercept

def decRidge (ts : List Token) : Option (FittedRidge × List Token) :=
  match decList decQ ts with
  | some (c, ts') =>
    match decQ ts' with
    | some (i, ts'') => some (⟨c, i⟩, ts'')
    | none => none
  | none => none

/-- `joblib.dump(final_pipe, ...)`: serialize the whole fitted pipeline to
one flat artifact. -/
def dump (fp : FittedFinalPipe) : List Token :=
  encList encPipeState fp.ctStates ++ encRidge fp.ridge

/-- `joblib.load(...)`: parse the artifact back into a fitted pipeline; a
malformed or incompletely consumed artifact yields no pipeline. -/
def load (ts : List Token) : Option FittedFinalPipe :=
  match decList decPipeState ts with
  | some (states, ts') =>
    match decRidge ts' with
    | some (r, []) => some ⟨states, r⟩
    | _ => none
  | none => none

/-! ### pandas operations used by the notebook -/

/-- Modelled from the spec: `df.pop(c)` removes column `c` in place and
returns its values; a missing column is a key error surfaced from the
library. -/
def DataFrame.pop (df : DataFrame) (c : String) :
    Except String (List Cell × DataFrame) :=
  if c ∈ df.cols then Except.ok (getCol df c, ⟨df.cols.erase c, df.rows⟩)
  else Except.error "KeyError"

/-- A field of the written CSV: a header label, an identifier cell, a
predicted value, or a row index. -/
inductive CsvField where
  | hdr (s : String)
  | idc (c : Cell)
  | pred (x : ℝ)
  | idx (n : Nat)

/-- `sub01 = pd.DataFrame({'Id': ..., 'SalePrice': ...})` from the source:
the submission pairs each test-row identifier with its prediction. -/
def mkSub (ids : List Cell) (preds : List ℝ) : List (Cell × ℝ) :=
  ids.zip preds

/-- Modelled from the spec: `sub01.to_csv(..., index=False)` writes a header
row and one data row per submission row; with `index` true an extra leading
index column would be written. -/
def subToCsv (sub : List (Cell × ℝ)) (index : Bool) : List (List CsvField) :=
  ((if index then [CsvField.hdr ""] else []) ++ [CsvField.hdr "Id", CsvField.hdr "SalePrice"]) ::
    (sub.enum.map (fun p =>
      (if index then [CsvField.idx p.1] else []) ++ [CsvField.idc p.2.1, CsvField.pred p.2.2]))

/-! ### Derived descriptions used in the statements

These definitions restate, at the level of one named column, what the
composed chains compute; the theorems below prove the chains equal to them. -/

/-- The table obtained by evaluating `f` on each dataset row at each of the
named columns.  Sub-tables and their imputed images all have this shape. -/
def shapeT (df : DataFrame) (cols : List String) (f : (String → Cell) → String → Cell) :
    Table :=
  df.rows.map (fun r => cols.map (f r))

/-- Categorical imputation of one cell: a missing value becomes the
column's most frequent fit-time value. -/
def imputeCat (df : DataFrame) (r : String → Cell) (c : String) : Cell :=
  if r c = Cell.na then mostFrequent (getCol df c) else r c

/-- The distinct categories the encoder observes for a column at fit time
(after imputation). -/
def observedCats (df : DataFrame) (c : String) : List Cell :=
  (df.rows.map (fun r => imputeCat df r c)).dedup

/-- The number of output columns the categorical group contributes: one per
category observed per declared categorical column. -/
def catWidth (df : DataFrame) : ℕ :=
  (cat_cols.map (fun c => (observedCats df c).length)).sum

/-- Continuous imputation of one cell: a missing value becomes the column's
fit-time mean. -/
def imputeCont (df : DataFrame) (r : String → Cell) (c : String) : Cell :=
  if r c = Cell.na then Cell.num (meanFill (getCol df c)) else r c

/-- One continuous column after imputation, as rationals. -/
def imputedQCol (df : DataFrame) (c : String) : List ℚ :=
  (df.rows.map (fun r => imputeCont df r c)).map (fun x => (toQ x).getD 0)

/-- The (mean, variance) pair the scaler learns for one continuous column. -/
def contMeanVar (df : DataFrame) (c : String) : ℚ × ℚ :=
  (meanQ (imputedQCol df c), varQ (imputedQCol df c))

/-! ### Round-trip of the serialization -/

theorem decItems_append {α : Type} {d : List Token → Option (α × List Token)}
    {e : α → List Token} (h : ∀ a r, d (e a ++ r) = some (a, r)) :
    ∀ (l : List α) (r : List Token),
      decItems d l.length ((l.map e).flatten ++ r) = some (l, r) := by
  intro l
  induction l with
  | nil => intro r; simp [decItems]
  | cons a l ih =>
    intro r
    simp only [List.map_cons, List.flatten_cons, List.length_cons, List.append_assoc]
    simp [decItems, h a, ih r]

theorem decList_encList {α : Type} {d : List Token → Option (α × List Token)}
    {e : α → List Token} (h : ∀ a r, d (e a ++ r) = some (a, r)) (l : List α)
    (r : List Token) : decList d (encList e l ++ r) = some (l, r) := by
  simp [encList, decList, decItems_append h]

theorem decCell_encCell (c : Cell) (r : List Token) :
    decCell (encCell c ++ r) = some (c, r) := rfl

theorem decQ_encQ (x : ℚ) (r : List Token) : decQ (encQ x ++ r) = some (x, r) := rfl

theorem decQQ_encQQ (p : ℚ × ℚ) (r : List Token) :
    decQQ (encQQ p ++ r) = some (p, r) := rfl

theorem decNumState_encNumState (st : NumState) (r : List Token) :
    decNumState (encNumState st ++ r) = some (st, r) := by
  cases st with
  | oheS cats =>
    simp only [encNumState, List.cons_append, decNumState]
    rw [decList_encList (fun l r => decList_encList decCell_encCell l r)]
  | ssS ps =>
    simp only [encNumState, List.cons_append, decNumState]
    rw [decList_encList decQQ_encQQ]

theorem decPipeState_encPipeState (st : PipeState) (r : List Token) :
    decPipeState (encPipeState st ++ r) = some (st, r) := by
  simp [encPipeState, decPipeState, List.append_assoc,
    decList_encList decCell_encCell, decNumState_encNumState]

theorem decRidge_encRidge (fr : FittedRidge) (r : List Token) :
    decRidge (encRidge fr ++ r) = some (fr, r) := by
  simp [encRidge, decRidge, List.append_assoc, decList_encList decQ_encQ, decQ_encQ]

theorem load_dump (fp : FittedFinalPipe) : load (dump fp) = some fp := by
  have h1 : dump fp = encList encPipeState fp.ctStates ++ (encRidge fp.ridge ++ []) := by
    simp [dump]
  rw [load, h1, decList_encList decPipeState_encPipeState]
  simp only [decRidge_encRidge]

/-! ### General list lemmas -/

theorem getD_zipWith {α β γ : Type} (f : α → β → γ) (d1 : α) (d2 : β) (d : γ) :
    ∀ (l1 : List α) (l2 : List β) (j : ℕ), j < l1.length → j < l2.length →
      (List.zipWith f l1 l2).getD j d = f (l1.getD j d1) (l2.getD j d2) := by
  intro l1
  induction l1 with
  | nil => intro l2 j h1 _; simp at h1
  | cons a l ih =>
    intro l2 j h1 h2
    cases l2 with
    | nil => simp at h2
    | cons b l2 =>
      cases j with
      | zero => simp
      | succ j =>
        simp only [List.zipWith_cons_cons, List.getD_cons_succ]
        exact ih l2 j (by simpa using h1) (by simpa using h2)

theorem getD_map {α β : Type} (g : α → β) (d : α) (d' : β) :
    ∀ (l : List α) (j : ℕ), j < l.length → (l.map g).getD j d' = g (l.getD j d) := by
  intro l
  induction l with
  | nil => intro j h; simp at h
  | cons a l ih =>
    intro j h
    cases j with
    | zero => simp
    | succ j => simpa using ih j (by simpa using h)

theorem map_range_getD {α β : Type} (g : α → β) (d : α) :
    ∀ (l : List α), (List.range l.length).map (fun j => g (l.getD j d)) = l.map g := by
  intro l
  induction l with
  | nil => simp
  | cons a l ih =>
    simp only [List.length_cons, List.range_succ_eq_map, List.map_cons, List.map_map,
      List.getD_cons_zero]
    refine congrArg (g a :: ·) ?_
    have hc : ((fun j => g ((a :: l).getD j d)) ∘ Nat.succ) = fun j => g (l.getD j d) := by
      funext j; simp
    rw [hc, ih]

theorem zipWith_map_same {α β γ δ : Type} (f : β → γ → δ) (g : α → β) (h : α → γ) :
    ∀ (l : List α), List.zipWith f (l.map g) (l.map h) = l.map (fun x => f (g x) (h x)) := by
  intro l
  induction l with
  | nil => rfl
  | cons a l ih => simp [ih]

theorem zipWith_append_replicate_nil :
    ∀ (A : List (List ℝ)) (n : ℕ), A.length = n →
      List.zipWith (· ++ ·) (List.replicate n ([] : List ℝ)) A = A := by
  intro A
  induction A with
  | nil => intro n h; simp [← h]
  | cons a A ih =>
    intro n h
    cases n with
    | zero => simp at h
    | succ n =>
      simp only [List.replicate_succ, List.zipWith_cons_cons, List.nil_append]
      exact congrArg (a :: ·) (ih n (by simpa using h))

theorem map_length_zipWith_append :
    ∀ (n : ℕ) (A B : List (List ℝ)) (w1 w2 : ℕ),
      A.map List.length = List.replicate n w1 → B.map List.length = List.replicate n w2 →
      (List.zipWith (· ++ ·) A B).map List.length = List.replicate n (w1 + w2) := by
  intro n
  induction n with
  | zero =>
    intro A B w1 w2 hA hB
    cases A with
    | nil => simp
    | cons a A => simp at hA
  | succ n ih =>
    intro A B w1 w2 hA hB
    cases A with
    | nil => simp at hA
    | cons a A =>
      cases B with
      | nil => simp at hB
      | cons b B =>
        simp only [List.map_cons, List.replicate_succ, List.cons.injEq] at hA hB
        simp only [List.zipWith_cons_cons, List.map_cons, List.replicate_succ]
        exact congrArg₂ (· :: ·) (by rw [List.length_append, hA.1, hB.1])
          (ih A B w1 w2 hA.2 hB.2)

/-! ### Tables of the shape `row ↦ cols.map (f row)`

Every table the dispatcher builds — a selected sub-table and its imputed
image — maps each dataset row to a list indexed by the group's column
names.  These lemmas compute the chain operations on that shape. -/

theorem subtable_eq_shapeT (df : DataFrame) (cols : List String) :
    subtable df cols = shapeT df cols (fun r c => r c) := rfl

theorem ncolsOf_shapeT (df : DataFrame) (cols : List String)
    (f : (String → Cell) → String → Cell) (h : df.rows ≠ []) :
    ncolsOf (shapeT df cols f) = cols.length := by
  cases hr : df.rows with
  | nil => exact absurd hr h
  | cons r rs => simp [shapeT, ncolsOf, hr]

theorem colOf_shapeT (df : DataFrame) (cols : List String)
    (f : (String → Cell) → String → Cell) (j : ℕ) (h : j < cols.length) :
    colOf (shapeT df cols f) j = df.rows.map (fun r => f r (cols.getD j "")) := by
  simp only [colOf, shapeT, List.map_map]
  refine List.map_congr_left (fun r _ => ?_)
  show (cols.map (f r)).getD j Cell.na = f r (cols.getD j "")
  exact getD_map (f r) "" Cell.na cols j h

theorem imputerTransform_shapeT (df : DataFrame) (cols : List String)
    (f : (String → Cell) → String → Cell) (g : String → Cell) :
    imputerTransform (cols.map g) (shapeT df cols f) =
      shapeT df cols (fun r c => if f r c = Cell.na then g c else f r c) := by
  simp only [imputerTransform, shapeT, List.map_map]
  refine List.map_congr_left (fun r _ => ?_)
  simp [Function.comp, imputeRow, zipWith_map_same]

theorem map_range_congr_getD {α β : Type} (g : α → β) (d : α) (l : List α) (F : ℕ → β)
    (h : ∀ j, j < l.length → F j = g (l.getD j d)) :
    (List.range l.length).map F = l.map g := by
  rw [← map_range_getD g d l]
  exact List.map_congr_left (fun j hj => h j (List.mem_range.mp hj))

theorem si_fit_shapeT (si : SimpleImputer) (df : DataFrame) (cols : List String)
    (f : (String → Cell) → String → Cell) (h : df.rows ≠ []) :
    si.fit (shapeT df cols f) = cols.map (fun c =>
      match si.strategy with
      | Strategy.most_frequent => mostFrequent (df.rows.map (fun r => f r c))
      | Strategy.mean => Cell.num (meanFill (df.rows.map (fun r => f r c)))) := by
  rw [SimpleImputer.fit, ncolsOf_shapeT df cols f h]
  refine map_range_congr_getD _ "" cols _ (fun j hj => ?_)
  rw [colOf_shapeT df cols f j hj]

theorem ohe_fit_shapeT (df : DataFrame) (cols : List String)
    (f : (String → Cell) → String → Cell) (h : df.rows ≠ []) :
    ohe.fitS (shapeT df cols f) =
      NumState.oheS (cols.map (fun c => (df.rows.map (fun r => f r c)).dedup)) := by
  show NumState.oheS _ = _
  rw [ncolsOf_shapeT df cols f h]
  refine congrArg NumState.oheS (map_range_congr_getD _ "" cols _ (fun j hj => ?_))
  rw [colOf_shapeT df cols f j hj]

theorem ss_fit_shapeT (df : DataFrame) (cols : List String)
    (f : (String → Cell) → String → Cell) (h : df.rows ≠ []) :
    ss.fitS (shapeT df cols f) =
      NumState.ssS (cols.map (fun c =>
        (meanQ ((df.rows.map (fun r => f r c)).map (fun x => (toQ x).getD 0)),
         varQ ((df.rows.map (fun r => f r c)).map (fun x => (toQ x).getD 0))))) := by
  show NumState.ssS _ = _
  rw [ncolsOf_shapeT df cols f h]
  refine congrArg NumState.ssS (map_range_congr_getD _ "" cols _ (fun j hj => ?_))
  rw [colOf_shapeT df cols f j hj]

theorem ohe_app_shapeT (cats : List (List Cell)) (df : DataFrame) (cols : List String)
    (f : (String → Cell) → String → Cell) :
    ohe.appS (NumState.oheS cats) (shapeT df cols f) =
      df.rows.map (fun r => oheRow cats (cols.map (f r))) := by
  simp [ohe, shapeT, List.map_map, Function.comp]

theorem ss_app_shapeT (ps : List (ℚ × ℚ)) (df : DataFrame) (cols : List String)
    (f : (String → Cell) → String → Cell) :
    ss.appS (NumState.ssS ps) (shapeT df cols f) =
      df.rows.map (fun r => List.zipWith scaleCell ps (cols.map (f r))) := by
  simp [ss, shapeT, List.map_map, Function.comp]

/-! ### The two concrete chains on a sub-table -/

theorem cat_fit_subtable (df : DataFrame) (cols : List String) (h : df.rows ≠ []) :
    cat_pipe.fit (subtable df cols) =
      ⟨cols.map (fun c => mostFrequent (getCol df c)),
       NumState.oheS (cols.map (fun c => (df.rows.map (fun r => imputeCat df r c)).dedup))⟩ := by
  have hf : si_cat.fit (subtable df cols) =
      cols.map (fun c => mostFrequent (getCol df c)) := by
    rw [subtable_eq_shapeT, si_fit_shapeT si_cat df cols _ h]
    rfl
  show (⟨si_cat.fit (subtable df cols),
    ohe.fitS (imputerTransform (si_cat.fit (subtable df cols)) (subtable df cols))⟩ :
      PipeState) = _
  rw [hf, subtable_eq_shapeT,
    imputerTransform_shapeT df cols _ (fun c => mostFrequent (getCol df c)),
    ohe_fit_shapeT df cols _ h]
  rfl

theorem cont_fit_subtable (df : DataFrame) (cols : List String) (h : df.rows ≠ []) :
    cont_pipe.fit (subtable df cols) =
      ⟨cols.map (fun c => Cell.num (meanFill (getCol df c))),
       NumState.ssS (cols.map (fun c =>
         (meanQ ((df.rows.map (fun r => imputeCont df r c)).map (fun x => (toQ x).getD 0)),
          varQ ((df.rows.map (fun r => imputeCont df r c)).map (fun x => (toQ x).getD 0)))))⟩ := by
  have hf : si_cont.fit (subtable df cols) =
      cols.map (fun c => Cell.num (meanFill (getCol df c))) := by
    rw [subtable_eq_shapeT, si_fit_shapeT si_cont df cols _ h]
    rfl
  show (⟨si_cont.fit (subtable df cols),
    ss.fitS (imputerTransform (si_cont.fit (subtable df cols)) (subtable df cols))⟩ :
      PipeState) = _
  rw [hf, subtable_eq_shapeT,
    imputerTransform_shapeT df cols _ (fun c => Cell.num (meanFill (getCol df c))),
    ss_fit_shapeT df cols _ h]
  rfl

theorem cat_app_subtable (df : DataFrame) (cols : List String) (g : String → Cell)
    (cats : List (List Cell)) :
    cat_pipe.app ⟨cols.map g, NumState.oheS cats⟩ (subtable df cols) =
      df.rows.map (fun r =>
        oheRow cats (cols.map (fun c => if r c = Cell.na then g c else r c))) := by
  show ohe.appS (NumState.oheS cats) (imputerTransform (cols.map g) (subtable df cols)) = _
  rw [subtable_eq_shapeT, imputerTransform_shapeT df cols _ g, ohe_app_shapeT]

theorem cont_app_subtable (df : DataFrame) (cols : List String) (g : String → Cell)
    (ps : List (ℚ × ℚ)) :
    cont_pipe.app ⟨cols.map g, NumState.ssS ps⟩ (subtable df cols) =
      df.rows.map (fun r =>
        List.zipWith scaleCell ps (cols.map (fun c => if r c = Cell.na then g c else r c))) := by
  show ss.appS (NumState.ssS ps) (imputerTransform (cols.map g) (subtable df cols)) = _
  rw [subtable_eq_shapeT, imputerTransform_shapeT df cols _ g, ss_app_shapeT]

theorem length_cat_app (st : PipeState) (t : Table) :
    (cat_pipe.app st t).length = t.length := by
  show (ohe.appS st.s2 (imputerTransform st.s1 t)).length = t.length
  cases st.s2 <;> simp [ohe, imputerTransform]

theorem length_cont_app (st : PipeState) (t : Table) :
    (cont_pipe.app st t).length = t.length := by
  show (ss.appS st.s2 (imputerTransform st.s1 t)).length = t.length
  cases st.s2 <;> simp [ss, imputerTransform]

theorem length_subtable (df : DataFrame) (cols : List String) :
    (subtable df cols).length = df.rows.length := by
  simp [subtable]

/-- The dispatcher's fit-transform is the horizontal concatenation of the
categorical chain's fit-transform block and the continuous chain's, in
declaration order. -/
theorem ct_fit_transform_eq (df : DataFrame) :
    ct_fit_transform df =
      List.zipWith (· ++ ·)
        (cat_pipe.app (cat_pipe.fit (subtable df cat_cols)) (subtable df cat_cols))
        (cont_pipe.app (cont_pipe.fit (subtable df cont_cols)) (subtable df cont_cols)) := by
  have hA : (cat_pipe.app (cat_pipe.fit (subtable df cat_cols))
      (subtable df cat_cols)).length = df.rows.length := by
    rw [length_cat_app, length_subtable]
  show hstackAll df.rows.length _ = _
  simp only [ColumnTransformer.fitCT, ct, List.map_cons, List.map_nil,
    List.zipWith_cons_cons, List.zipWith_nil_right]
  rw [hstackAll]
  simp only [List.foldl_cons, List.foldl_nil]
  rw [zipWith_append_replicate_nil _ df.rows.length hA]

/-! ### Width and indicator lemmas -/

theorem cellIndicator_not_mem (cats : List Cell) (v : Cell) (h : v ∉ cats) :
    cellIndicator cats v = List.replicate cats.length (0 : ℝ) := by
  induction cats with
  | nil => rfl
  | cons c cats ih =>
    have hne : ¬c = v := fun hc => h (hc ▸ List.mem_cons_self c cats)
    simp only [cellIndicator, List.map_cons, List.length_cons, List.replicate_succ, if_neg hne]
    exact congrArg ((0 : ℝ) :: ·) (ih (fun hm => h (List.mem_cons_of_mem c hm)))

theorem length_oheRow : ∀ (cats : List (List Cell)) (row : List Cell),
    row.length = cats.length → (oheRow cats row).length = (cats.map List.length).sum := by
  intro cats
  induction cats with
  | nil =>
    intro row h
    rcases List.length_eq_zero.mp h with rfl
    rfl
  | cons cs cats ih =>
    intro row h
    cases row with
    | nil => simp at h
    | cons v row =>
      simp only [oheRow, List.zipWith_cons_cons, List.flatten_cons, List.length_append,
        List.map_cons, List.sum_cons, cellIndicator, List.length_map]
      have := ih row (by simpa using h)
      rw [oheRow] at this
      rw [this]

theorem map_length_oheRow_shape (df : DataFrame) (cats : List (List Cell))
    (cols : List String) (f : (String → Cell) → String → Cell)
    (h : cats.length = cols.length) :
    (df.rows.map (fun r => oheRow cats (cols.map (f r)))).map List.length =
      List.replicate df.rows.length ((cats.map List.length).sum) := by
  rw [List.map_map]
  have hc : (List.length ∘ fun r => oheRow cats (cols.map (f r))) =
      fun _ => (cats.map List.length).sum := by
    funext r
    exact length_oheRow cats (cols.map (f r)) (by simp [h])
  rw [hc, List.map_const']

theorem map_length_scale_shape (df : DataFrame) (ps : List (ℚ × ℚ))
    (cols : List String) (f : (String → Cell) → String → Cell)
    (h : ps.length = cols.length) :
    (df.rows.map (fun r => List.zipWith scaleCell ps (cols.map (f r)))).map List.length =
      List.replicate df.rows.length cols.length := by
  rw [List.map_map]
  have hc : (List.length ∘ fun r => List.zipWith scaleCell ps (cols.map (f r))) =
      fun _ => cols.length := by
    funext r
    simp [List.length_zipWith, h]
  rw [hc, List.map_const']

/-! ### The most frequent value is an argmax of multiplicity -/

theorem foldl_max_spec (f : Cell → ℕ) :
    ∀ (l : List Cell) (init : Cell),
      (l.foldl (fun best w => if f best < f w then w else best) init = init ∨
        l.foldl (fun best w => if f best < f w then w else best) init ∈ l) ∧
      f init ≤ f (l.foldl (fun best w => if f best < f w then w else best) init) ∧
      ∀ w ∈ l, f w ≤ f (l.foldl (fun best w => if f best < f w then w else best) init) := by
  intro l
  induction l with
  | nil => intro init; exact ⟨Or.inl rfl, le_refl _, by simp⟩
  | cons a l ih =>
    intro init
    simp only [List.foldl_cons]
    obtain ⟨h1, h2, h3⟩ := ih (if f init < f a then a else init)
    have hi : f init ≤ f (if f init < f a then a else init) := by
      by_cases hc : f init < f a
      · simp only [if_pos hc]; exact le_of_lt hc
      · simp only [if_neg hc]; exact le_refl _
    have ha : f a ≤ f (if f init < f a then a else init) := by
      by_cases hc : f init < f a
      · simp only [if_pos hc]; exact le_refl _
      · simp only [if_neg hc]; omega
    refine ⟨?_, le_trans hi h2, ?_⟩
    · rcases h1 with h1 | h1
      · by_cases hc : f init < f a
        · right
          rw [h1]
          simp only [if_pos hc]
          exact List.mem_cons_self a l
        · left
          rw [h1]
          simp only [if_neg hc]
      · right; exact List.mem_cons_of_mem a h1
    · intro w hw
      rcases List.mem_cons.mp hw with rfl | hw
      · exact le_trans ha h2
      · exact h3 w hw

theorem mostFrequent_spec (l : List Cell) (h : presentCells l ≠ []) :
    mostFrequent l ∈ presentCells l ∧
      ∀ v ∈ presentCells l,
        (presentCells l).count v ≤ (presentCells l).count (mostFrequent l) := by
  rcases hp : presentCells l with _ | ⟨v, tl⟩
  · exact absurd hp h
  · have hmf : mostFrequent l = (v :: tl).dedup.foldl
        (fun best w => if (v :: tl).count best < (v :: tl).count w then w else best) v := by
      simp only [mostFrequent, hp]
    obtain ⟨h1, h2, h3⟩ := foldl_max_spec (fun c => (v :: tl).count c) (v :: tl).dedup v
    constructor
    · rw [hmf]
      rcases h1 with h1 | h1
      · rw [h1]; exact List.mem_cons_self v tl
      · exact List.dedup_subset (v :: tl) h1
    · intro w hw
      rw [hmf]
      exact h3 w (List.mem_dedup.mpr hw)

/-! ### Row counts and frame lemmas -/

theorem length_transformCT (states : List PipeState) (df : DataFrame) :
    (ct.transformCT states df).length = df.rows.length := by
  rcases states with _ | ⟨s1, rest⟩
  · simp [ColumnTransformer.transformCT, ct, hstackAll]
  · rcases rest with _ | ⟨s2, rest2⟩
    · simp [ColumnTransformer.transformCT, ct, hstackAll, List.length_zipWith,
        length_cat_app, length_subtable]
    · simp [ColumnTransformer.transformCT, ct, hstackAll, List.length_zipWith,
        length_cat_app, length_cont_app, length_subtable]

theorem subtable_congr (allc : List String) :
    ∀ (l1 l2 : List (String → Cell)), l1.length = l2.length →
      (∀ p ∈ l1.zip l2, ∀ c ∈ allc, p.1 c = p.2 c) →
      ∀ cols : List String, (∀ c ∈ cols, c ∈ allc) →
        l1.map (fun r => cols.map r) = l2.map (fun r => cols.map r) := by
  intro l1
  induction l1 with
  | nil =>
    intro l2 hl _ cols _
    rcases List.length_eq_zero.mp hl.symm with rfl
    rfl
  | cons r1 t1 ih =>
    intro l2 hl hag cols hc
    cases l2 with
    | nil => simp at hl
    | cons r2 t2 =>
      have h0 : ∀ c ∈ allc, r1 c = r2 c :=
        hag (r1, r2) (by simp [List.zip_cons_cons])
      simp only [List.map_cons]
      refine congrArg₂ (· :: ·) ?_
        (ih t2 (by simpa using hl)
          (fun p hp => hag p (by simp [List.zip_cons_cons, hp])) cols hc)
      exact List.map_congr_left (fun c hcc => h0 c (hc c hcc))

/-! ### The claims -/

/-- C1.  Round-trip persistence: serializing the fitted top-level pipeline
with `dump` and deserializing with `load` recovers the pipeline exactly, so
its `predict` output on any dataset is identical to the original in-memory
pipeline's. -/
theorem claim_C1 (fp : FittedFinalPipe) (df : DataFrame) :
    load (dump fp) = some fp ∧
      (load (dump fp)).map (fun g => predict g df) = some (predict fp df) := by
  refine ⟨load_dump fp, ?_⟩
  rw [load_dump fp]
  rfl

/-- C2.  Unseen-category handling: a value at position `j` of a row that is
not among the categories observed at fit time for column `j` produces an
all-zero indicator block of that column's width, and the encoder's row
transform is the total function flattening these blocks (no error is
possible). -/
theorem claim_C2 (cats : List (List Cell)) (row : List Cell) (j : ℕ)
    (h1 : j < cats.length) (h2 : j < row.length)
    (h : row.getD j Cell.na ∉ cats.getD j []) :
    (List.zipWith cellIndicator cats row).getD j [] =
      List.replicate (cats.getD j []).length (0 : ℝ) ∧
    oheRow cats row = (List.zipWith cellIndicator cats row).flatten := by
  refine ⟨?_, rfl⟩
  rw [getD_zipWith cellIndicator [] Cell.na [] cats row j h1 h2]
  exact cellIndicator_not_mem _ _ h

theorem claim_C2_witness :
    (0 < ([[Cell.str "a", Cell.str "b"]] : List (List Cell)).length ∧
     0 < ([Cell.str "z"] : List Cell).length ∧
     ([Cell.str "z"] : List Cell).getD 0 Cell.na ∉
       ([[Cell.str "a", Cell.str "b"]] : List (List Cell)).getD 0 []) ∧
    ((List.zipWith cellIndicator [[Cell.str "a", Cell.str "b"]] [Cell.str "z"]).getD 0 [] =
      List.replicate (([[Cell.str "a", Cell.str "b"]] : List (List Cell)).getD 0 []).length
        (0 : ℝ) ∧
     oheRow [[Cell.str "a", Cell.str "b"]] [Cell.str "z"] =
       (List.zipWith cellIndicator [[Cell.str "a", Cell.str "b"]] [Cell.str "z"]).flatten) :=
  ⟨⟨by decide, by decide, by decide⟩,
    claim_C2 [[Cell.str "a", Cell.str "b"]] [Cell.str "z"] 0 (by decide) (by decide) (by decide)⟩

/-- C3.  Shape invariant: every row of the dispatcher's fit-transform output
has width equal to the sum over groups of that group's output width — one
column per category observed at fit time for each categorical column, one
column per continuous column. -/
theorem claim_C3 (df : DataFrame) :
    (ct_fit_transform df).map List.length =
      List.replicate df.rows.length (catWidth df + cont_cols.length) := by
  by_cases h : df.rows = []
  · rw [ct_fit_transform_eq df]
    have hA : cat_pipe.app (cat_pipe.fit (subtable df cat_cols)) (subtable df cat_cols) = [] := by
      have hl := length_cat_app (cat_pipe.fit (subtable df cat_cols)) (subtable df cat_cols)
      rw [length_subtable, h] at hl
      exact List.length_eq_zero.mp (by simpa using hl)
    rw [hA]
    simp [h]
  · rw [ct_fit_transform_eq df, cat_fit_subtable df cat_cols h, cont_fit_subtable df cont_cols h,
      cat_app_subtable df cat_cols _ _, cont_app_subtable df cont_cols _ _]
    refine map_length_zipWith_append df.rows.length _ _ (catWidth df) cont_cols.length ?_ ?_
    · have hsum : ((cat_cols.map (fun c =>
          (df.rows.map (fun r => imputeCat df r c)).dedup)).map List.length).sum =
          catWidth df := by
        rw [List.map_map]
        rfl
      rw [map_length_oheRow_shape df _ cat_cols _ (by simp), hsum]
    · exact map_length_scale_shape df _ cont_cols _ (by simp)

/-- C4.  Drop invariant: two datasets whose rows agree on every column of
the declared groups (whatever their values elsewhere) produce the same
fit-transform output — columns outside all groups contribute nothing. -/
theorem claim_C4 (df1 df2 : DataFrame)
    (hlen : df1.rows.length = df2.rows.length)
    (hagree : ∀ p ∈ df1.rows.zip df2.rows, ∀ c ∈ cat_cols ++ cont_cols, p.1 c = p.2 c) :
    ct_fit_transform df1 = ct_fit_transform df2 := by
  have hsub : ∀ cols : List String, (∀ c ∈ cols, c ∈ cat_cols ++ cont_cols) →
      subtable df1 cols = subtable df2 cols :=
    fun cols hc => subtable_congr (cat_cols ++ cont_cols) df1.rows df2.rows hlen hagree cols hc
  rw [ct_fit_transform_eq df1, ct_fit_transform_eq df2,
    show subtable df1 cat_cols = subtable df2 cat_cols from
      hsub cat_cols (fun c hc => List.mem_append_left _ hc),
    show subtable df1 cont_cols = subtable df2 cont_cols from
      hsub cont_cols (fun c hc => List.mem_append_right _ hc)]

/-- C5.  Concatenation order: the dispatcher's fit-transform is, row by row,
the categorical chain's output block followed by the continuous chain's
output block — the declaration order of the transformer triples. -/
theorem claim_C5 (df : DataFrame) :
    ct_fit_transform df =
      List.zipWith (· ++ ·)
        (cat_pipe.app (cat_pipe.fit (subtable df cat_cols)) (subtable df cat_cols))
        (cont_pipe.app (cont_pipe.fit (subtable df cont_cols)) (subtable df cont_cols)) :=
  ct_fit_transform_eq df

theorem claim_C4_witness :
    ((DataFrame.mk (cat_cols ++ cont_cols ++ ["Extra"])
        [fun c => if c = "Extra" then Cell.str "x" else Cell.str "v"]).rows.length =
      (DataFrame.mk (cat_cols ++ cont_cols ++ ["Extra"])
        [fun c => if c = "Extra" then Cell.str "y" else Cell.str "v"]).rows.length ∧
     ∀ p ∈ (DataFrame.mk (cat_cols ++ cont_cols ++ ["Extra"])
        [fun c => if c = "Extra" then Cell.str "x" else Cell.str "v"]).rows.zip
          (DataFrame.mk (cat_cols ++ cont_cols ++ ["Extra"])
            [fun c => if c = "Extra" then Cell.str "y" else Cell.str "v"]).rows,
       ∀ c ∈ cat_cols ++ cont_cols, p.1 c = p.2 c) ∧
    ct_fit_transform (DataFrame.mk (cat_cols ++ cont_cols ++ ["Extra"])
        [fun c => if c = "Extra" then Cell.str "x" else Cell.str "v"]) =
      ct_fit_transform (DataFrame.mk (cat_cols ++ cont_cols ++ ["Extra"])
        [fun c => if c = "Extra" then Cell.str "y" else Cell.str "v"]) :=
  ⟨⟨rfl, by decide⟩, claim_C4 _ _ rfl (by decide)⟩

/-- C6.  Predict does not re-fit: a predict call, modelled with explicit
state threading, returns the fitted pipeline's learned parameters unchanged,
and its output is computed only by applying those stored parameters (the
dispatcher states and the ridge coefficients) to the input. -/
theorem claim_C6 (fp : FittedFinalPipe) (df : DataFrame) :
    (predictS fp df).1 = fp ∧
      (predictS fp df).2 = (ct.transformCT fp.ctStates df).map (ridgePredictRow fp.ridge) :=
  ⟨rfl, rfl⟩

/-- C7.  Per-group chain semantics: the fitted categorical chain imputes
each cell with the column's most frequent fit-time value and then one-hot
encodes against the categories observed after imputation, in that order; the
fitted continuous chain imputes with the column's fit-time mean and then
standardizes with the fit-time mean and standard deviation (`scaleCell`
subtracts the mean and divides by the square root of the variance); and the
categorical fill value is indeed a value of maximal multiplicity among the
column's present values. -/
theorem claim_C7 (df : DataFrame) (h : df.rows ≠ []) :
    (cat_pipe.app (cat_pipe.fit (subtable df cat_cols)) (subtable df cat_cols) =
      df.rows.map (fun r => oheRow (cat_cols.map (fun c => observedCats df c))
        (cat_cols.map (fun c => imputeCat df r c)))) ∧
    (cont_pipe.app (cont_pipe.fit (subtable df cont_cols)) (subtable df cont_cols) =
      df.rows.map (fun r => cont_cols.map (fun c =>
        scaleCell (contMeanVar df c) (imputeCont df r c)))) ∧
    (∀ l : List Cell, presentCells l ≠ [] →
      mostFrequent l ∈ presentCells l ∧
      ∀ v ∈ presentCells l,
        (presentCells l).count v ≤ (presentCells l).count (mostFrequent l)) := by
  refine ⟨?_, ?_, fun l hl => mostFrequent_spec l hl⟩
  · rw [cat_fit_subtable df cat_cols h, cat_app_subtable df cat_cols _ _]
    rfl
  · rw [cont_fit_subtable df cont_cols h, cont_app_subtable df cont_cols _ _]
    refine List.map_congr_left (fun r _ => ?_)
    rw [zipWith_map_same scaleCell _ _ cont_cols]
    rfl

theorem claim_C7_witness :
    ((DataFrame.mk (cat_cols ++ cont_cols) [fun _ => Cell.str "a"]).rows ≠ []) ∧
    ((cat_pipe.app
        (cat_pipe.fit (subtable (DataFrame.mk (cat_cols ++ cont_cols)
          [fun _ => Cell.str "a"]) cat_cols))
        (subtable (DataFrame.mk (cat_cols ++ cont_cols) [fun _ => Cell.str "a"]) cat_cols) =
      (DataFrame.mk (cat_cols ++ cont_cols) [fun _ => Cell.str "a"]).rows.map (fun r =>
        oheRow (cat_cols.map (fun c =>
          observedCats (DataFrame.mk (cat_cols ++ cont_cols) [fun _ => Cell.str "a"]) c))
        (cat_cols.map (fun c =>
          imputeCat (DataFrame.mk (cat_cols ++ cont_cols) [fun _ => Cell.str "a"]) r c)))) ∧
    (cont_pipe.app
        (cont_pipe.fit (subtable (DataFrame.mk (cat_cols ++ cont_cols)
          [fun _ => Cell.str "a"]) cont_cols))
        (subtable (DataFrame.mk (cat_cols ++ cont_cols) [fun _ => Cell.str "a"]) cont_cols) =
      (DataFrame.mk (cat_cols ++ cont_cols) [fun _ => Cell.str "a"]).rows.map (fun r =>
        cont_cols.map (fun c =>
          scaleCell (contMeanVar (DataFrame.mk (cat_cols ++ cont_cols)
            [fun _ => Cell.str "a"]) c)
          (imputeCont (DataFrame.mk (cat_cols ++ cont_cols) [fun _ => Cell.str "a"]) r c)))) ∧
    (∀ l : List Cell, presentCells l ≠ [] →
      mostFrequent l ∈ presentCells l ∧
      ∀ v ∈ presentCells l,
        (presentCells l).count v ≤ (presentCells l).count (mostFrequent l))) :=
  ⟨List.cons_ne_nil _ _, claim_C7 _ (List.cons_ne_nil _ _)⟩

/-- C8.  Double target extraction: once `pop 'SalePrice'` has removed the
column, a second `pop 'SalePrice'` surfaces the library's key error rather
than returning a value. -/
theorem claim_C8 (df : DataFrame) (hnd : df.cols.Nodup) (v : List Cell) (df' : DataFrame)
    (h : df.pop "SalePrice" = Except.ok (v, df')) :
    df'.pop "SalePrice" = Except.error "KeyError" := by
  rw [DataFrame.pop] at h
  by_cases hm : "SalePrice" ∈ df.cols
  · rw [if_pos hm] at h
    injection h with h'
    have h2 : (⟨df.cols.erase "SalePrice", df.rows⟩ : DataFrame) = df' :=
      congrArg Prod.snd h'
    rw [DataFrame.pop, ← h2]
    have hne : "SalePrice" ∉ df.cols.erase "SalePrice" := by
      intro hmem
      exact ((hnd.mem_erase_iff.mp hmem).1) rfl
    rw [if_neg hne]
  · rw [if_neg hm] at h
    exact absurd h (by simp)

theorem claim_C8_witness :
    (["Id", "SalePrice"] : List String).Nodup ∧
    DataFrame.pop ⟨["Id", "SalePrice"], []⟩ "SalePrice" =
      Except.ok ([], (⟨["Id"], []⟩ : DataFrame)) ∧
    DataFrame.pop (⟨["Id"], []⟩ : DataFrame) "SalePrice" = Except.error "KeyError" :=
  ⟨by decide, by rfl,
    claim_C8 ⟨["Id", "SalePrice"], []⟩ (by decide) [] ⟨["Id"], []⟩ (by rfl)⟩

/-- C9.  Submission file shape: the CSV written with `index = false` has the
two-field header `Id, SalePrice`, one data row per row of the test dataset,
and every line has exactly two fields (no extra index column). -/
theorem claim_C9 (fp : FittedFinalPipe) (df : DataFrame) :
    ((subToCsv (mkSub (getCol df "Id") (predict fp df)) false).length =
      df.rows.length + 1) ∧
    ((subToCsv (mkSub (getCol df "Id") (predict fp df)) false).head? =
      some [CsvField.hdr "Id", CsvField.hdr "SalePrice"]) ∧
    (∀ line ∈ subToCsv (mkSub (getCol df "Id") (predict fp df)) false, line.length = 2) := by
  have hp : (predict fp df).length = df.rows.length := by
    simp [predict, length_transformCT]
  have hsub : (mkSub (getCol df "Id") (predict fp df)).length = df.rows.length := by
    simp [mkSub, List.length_zip, hp, getCol]
  refine ⟨?_, ?_, ?_⟩
  · simp [subToCsv, hsub]
  · simp [subToCsv]
  · intro line hl
    simp only [subToCsv, if_neg Bool.false_ne_true, Bool.false_eq_true, if_false,
      List.nil_append, List.mem_cons] at hl
    rcases hl with rfl | hl
    · rfl
    · obtain ⟨p, _, rfl⟩ := List.mem_map.mp hl
      rfl

/-- C10.  Determinism of prediction: with explicit state threading, a second
predict call on the same dataset — run in the state the first call left
behind — returns exactly the first call's output; prediction is a pure
function of the learned parameters and the input. -/
theorem claim_C10 (fp : FittedFinalPipe) (df : DataFrame) :
    (predictS ((predictS fp df).1) df).2 = (predictS fp df).2 := rfl
